import Mathlib

/-!
Verification of the Map-the-Internet crawl-queue worker (`src/worker.py`).

The worker's pure logic is embedded shallowly:

* Python string operations (`split`, `strip`, `endswith`, …) are modelled on
  `List Char`, with the exact Python semantics (e.g. `"".split('/') = [""]`).
* `urllib.parse` (`urlparse`, `urlunparse`, `urljoin`) is modelled after the
  CPython implementation, restricted to the byte-level operations the worker
  exercises (scheme/netloc/path/params/query/fragment splitting, relative
  reference resolution with dot-segment removal).
* The MariaDB store is modelled as an explicit record of tables
  (`link_queue`, `domains`, `domain_relationships`); every SQL statement the
  worker issues becomes one atomic operation on that record (matching the
  per-statement `conn.commit()` in `execute`).
* Store faults are injected through an explicit schedule (`List DbOutcome`):
  each call of the Python helper `execute` consumes one outcome, which is
  either success, a deadlock error (`execute` logs and implicitly returns
  `None`), or any other `mariadb.Error` (`execute` logs and returns `False`).
  An uncaught Python exception (such as the `TypeError` raised by subscripting
  `False` or `None`) is modelled by `Except.error`.
-/

namespace MapTheInternet

/-! ## Python string primitives, modelled on `List Char` -/

/-- Python `s.startswith(t)`. -/
def pyStartsWith (s t : String) : Bool := t.data.isPrefixOf s.data

/-- Python `s.endswith(t)` (true for the empty suffix). -/
def pyEndsWith (s t : String) : Bool := t.data.isSuffixOf s.data

/-- Python `c in s` for a single character. -/
def pyContainsChar (s : String) (c : Char) : Bool := s.data.contains c

/-- Python whitespace characters stripped by `str.strip()` (ASCII subset). -/
def isPySpace (c : Char) : Bool :=
  c = ' ' || c = '\t' || c = '\n' || c = '\r' || c = '\x0b' || c = '\x0c'

/-- Python `s.strip()`. -/
def pyStrip (s : String) : String :=
  ⟨((s.data.dropWhile isPySpace).reverse.dropWhile isPySpace).reverse⟩

/-- Python `s.lower()` (ASCII). -/
def pyLower (s : String) : String := ⟨s.data.map Char.toLower⟩

/-- Core of Python `s.split(c)`: splits at every occurrence of `c`,
keeping empty pieces; the result is always nonempty. -/
def splitCharList (c : Char) : List Char → List (List Char)
  | [] => [[]]
  | x :: xs =>
    let r := splitCharList c xs
    if x = c then [] :: r
    else
      match r with
      | h :: t => (x :: h) :: t
      | [] => [[x]]

/-- Python `s.split(c)` for a one-character separator. -/
def pySplitChar (s : String) (c : Char) : List String :=
  (splitCharList c s.data).map (fun l => ⟨l⟩)

/-- Splits a character list at the first occurrence of `c`;
`none` when `c` does not occur.  Models Python `s.split(c, 1)`
guarded by `c in s`. -/
def splitOnceChar (c : Char) : List Char → Option (List Char × List Char)
  | [] => none
  | x :: xs =>
    if x = c then some ([], xs)
    else (splitOnceChar c xs).map (fun p => (x :: p.1, p.2))

/-- Python `s.split(c, 1)[1]` when `c in s`, else `""`:
everything after the first occurrence of `c`. -/
def pyAfterFirst (s : String) (c : Char) : String :=
  match splitOnceChar c s.data with
  | some p => ⟨p.2⟩
  | none => ""

/-- Python `s.split(c)[1]` (second piece), defaulting to `""` when absent. -/
def pySecondPiece (s : String) (c : Char) : String :=
  ((pySplitChar s c).drop 1).headD ""

/-- Takes characters until one of `stops` is hit, returning the
prefix and the remainder (which starts with the stop character). -/
def takeUntilAny (stops : List Char) : List Char → List Char × List Char
  | [] => ([], [])
  | x :: xs =>
    if stops.contains x then ([], x :: xs)
    else
      let p := takeUntilAny stops xs
      (x :: p.1, p.2)

/-- Python `'/'.join(parts)` generalised to any one-character separator. -/
def joinChar (c : Char) (parts : List String) : String :=
  match parts with
  | [] => ""
  | h :: t => t.foldl (fun acc s => acc ++ ⟨[c]⟩ ++ s) h

/-! ## `urllib.parse`, modelled after CPython -/

/-- Characters allowed after the first character of a URL scheme. -/
def isSchemeChar (c : Char) : Bool :=
  c.isAlphanum || c = '+' || c = '-' || c = '.'

/-- Result of `urllib.parse.urlparse`: the six-tuple
`(scheme, netloc, path, params, query, fragment)`. -/
structure ParsedUrl where
  scheme : String
  netloc : String
  path : String
  params : String
  query : String
  fragment : String
deriving DecidableEq, Repr

/-- CPython `urlsplit` scheme extraction: the text before the first `:`
is a scheme when nonempty, starting with an ASCII letter, with the rest
drawn from letters, digits, `+`, `-`, `.`; the scheme is lower-cased. -/
def splitScheme (l : List Char) (defScheme : String) : List Char × List Char :=
  match splitOnceChar ':' l with
  | some (pre, post) =>
    if pre ≠ [] && (pre.headD ' ').isAlpha && pre.tail.all isSchemeChar then
      (pre.map Char.toLower, post)
    else (defScheme.data, l)
  | none => (defScheme.data, l)

/-- CPython `_splitnetloc`: after a leading `//`, the netloc runs to the
first `/`, `?` or `#`. -/
def splitNetloc (l : List Char) : List Char × List Char :=
  match l with
  | '/' :: '/' :: tl => takeUntilAny ['/', '?', '#'] tl
  | _ => ([], l)

/-- CPython `urlsplit(url, scheme)` restricted to the five components
(scheme, netloc, path-with-params, query, fragment). -/
def urlsplitRaw (url defScheme : String) :
    List Char × List Char × List Char × List Char × List Char :=
  let (scheme, rest) := splitScheme url.data defScheme
  let (netloc, rest) := splitNetloc rest
  let (rest, fragment) :=
    match splitOnceChar '#' rest with
    | some p => p
    | none => (rest, [])
  let (path, query) :=
    match splitOnceChar '?' rest with
    | some p => p
    | none => (rest, [])
  (scheme, netloc, path, query, fragment)

/-- CPython `_splitparams`: split `;params` off the last path segment
(off the whole path when it has no `/`). -/
def splitparams (l : List Char) : List Char × List Char :=
  if l.contains '/' then
    let segs := splitCharList '/' l
    let last := segs.getLastD []
    match splitOnceChar ';' last with
    | some (pre, post) =>
      ((segs.dropLast.foldr (fun seg acc => seg ++ '/' :: acc) pre), post)
    | none => (l, [])
  else
    match splitOnceChar ';' l with
    | some p => p
    | none => (l, [])

/-- CPython `urlparse(url, scheme)`. -/
def urlparseDef (url defScheme : String) : ParsedUrl :=
  let (scheme, netloc, pathRaw, query, fragment) := urlsplitRaw url defScheme
  let (path, params) :=
    if pathRaw.contains ';' then splitparams pathRaw else (pathRaw, [])
  ⟨⟨scheme⟩, ⟨netloc⟩, ⟨path⟩, ⟨params⟩, ⟨query⟩, ⟨fragment⟩⟩

/-- CPython `urlparse(url)`. -/
def urlparse (url : String) : ParsedUrl := urlparseDef url ""

/-- CPython `urlunsplit((scheme, netloc, url, query, fragment))`. -/
def urlunsplit (scheme netloc path query fragment : String) : String :=
  let url := path
  let url :=
    if netloc ≠ "" || (url ≠ "" && pyStartsWith url "//") then
      "//" ++ netloc ++ (if url ≠ "" && !(pyStartsWith url "/") then "/" ++ url else url)
    else url
  let url := if scheme ≠ "" then scheme ++ ":" ++ url else url
  let url := if query ≠ "" then url ++ "?" ++ query else url
  if fragment ≠ "" then url ++ "#" ++ fragment else url

/-- CPython `urlunparse`. -/
def urlunparse (p : ParsedUrl) : String :=
  let u := if p.params ≠ "" then p.path ++ ";" ++ p.params else p.path
  urlunsplit p.scheme p.netloc u p.query p.fragment

/-- Schemes that allow relative references (CPython `uses_relative`). -/
def usesRelative : List String :=
  ["", "ftp", "http", "gopher", "nntp", "imap", "wais", "file", "https",
   "shttp", "mms", "prospero", "rtsp", "rtspu", "sftp", "svn", "svn+ssh",
   "ws", "wss"]

/-- Schemes that use a network location (CPython `uses_netloc`). -/
def usesNetloc : List String :=
  ["", "ftp", "http", "gopher", "nntp", "telnet", "imap", "wais", "file",
   "mms", "https", "shttp", "snews", "prospero", "rtsp", "rtspu", "rsync",
   "svn", "svn+ssh", "sftp", "nfs", "git", "git+ssh", "ws", "wss"]

/-- CPython dot-segment resolution loop inside `urljoin`. -/
def resolveSegments (segs : List String) : List String :=
  segs.foldl
    (fun acc seg =>
      if seg = ".." then acc.dropLast
      else if seg = "." then acc
      else acc ++ [seg])
    []

/-- CPython `segments[1:-1] = filter(None, segments[1:-1])`. -/
def filterInnerEmpty (l : List String) : List String :=
  match l with
  | [] => []
  | [x] => [x]
  | x :: xs => x :: ((xs.dropLast.filter (fun s => s ≠ "")) ++ [xs.getLastD ""])

/-- CPython `urljoin(base, url)`. -/
def urljoin (base url : String) : String :=
  if base = "" then url
  else if url = "" then base
  else
    let b := urlparseDef base ""
    let r := urlparseDef url b.scheme
    if r.scheme ≠ b.scheme || !(usesRelative.contains r.scheme) then url
    else
      let (netloc, done) :=
        if usesNetloc.contains r.scheme then
          if r.netloc ≠ "" then (r.netloc, true) else (b.netloc, false)
        else (r.netloc, false)
      if done then
        urlunparse ⟨r.scheme, netloc, r.path, r.params, r.query, r.fragment⟩
      else if r.path = "" && r.params = "" then
        let query := if r.query = "" then b.query else r.query
        urlunparse ⟨r.scheme, netloc, b.path, b.params, query, r.fragment⟩
      else
        let baseParts :=
          let bp := pySplitChar b.path '/'
          if bp.getLastD "" ≠ "" then bp.dropLast else bp
        let segments :=
          if pyStartsWith r.path "/" then pySplitChar r.path '/'
          else filterInnerEmpty (baseParts ++ pySplitChar r.path '/')
        let resolved :=
          let rp := resolveSegments segments
          if segments.getLastD "" = "." || segments.getLastD "" = ".." then
            rp ++ [""]
          else rp
        let joined := joinChar '/' resolved
        urlunparse ⟨r.scheme, netloc, (if joined = "" then "/" else joined),
                    r.params, r.query, r.fragment⟩

/-! ## The persisted store (MariaDB tables used by the worker) -/

/-- `link_queue.status`: `ENUM('pending','processing','done','unreachable')`. -/
inductive Status where
  | pending
  | processing
  | done
  | unreachable
deriving DecidableEq, Repr

/-- One row of the `domains` table. -/
structure DomainRow where
  id : Nat
  name : String
  processed_links : Nat
deriving DecidableEq, Repr

/-- The shared store: `link_queue`, `domains`, `domain_relationships`,
plus the auto-increment counter supplying fresh domain ids. -/
structure Store where
  queue : List (String × Status)
  domains : List DomainRow
  rels : List (Nat × Nat)
  nextId : Nat
deriving DecidableEq, Repr

/-- `INSERT IGNORE INTO link_queue (url, status) VALUES (?, 'pending')`:
returns the statement's rowcount (1 when a row was inserted, 0 when the
unique url already existed). -/
def qInsertIgnore (st : Store) (url : String) : Nat × Store :=
  if (st.queue.map (fun r => r.1)).contains url then (0, st)
  else (1, { st with queue := st.queue ++ [(url, Status.pending)] })

/-- `SELECT url FROM link_queue WHERE status = 'pending' LIMIT 1`. -/
def qSelectPending (st : Store) : Option String :=
  (st.queue.find? (fun r => r.2 == Status.pending)).map (fun r => r.1)

/-- `UPDATE link_queue SET status = ? WHERE url = ?`. -/
def qUpdateStatus (st : Store) (url : String) (s : Status) : Store :=
  { st with queue := st.queue.map (fun r => if r.1 = url then (r.1, s) else r) }

/-- `SELECT id, processed_links FROM domains WHERE domain = ?`. -/
def dSelect (st : Store) (name : String) : Option (Nat × Nat) :=
  (st.domains.find? (fun d => d.name == name)).map
    (fun d => (d.id, d.processed_links))

/-- `INSERT IGNORE INTO domains (domain) VALUES (?)`: a fresh row gets the
next auto-increment id and `processed_links` defaulting to 0. -/
def dInsertIgnore (st : Store) (name : String) : Store :=
  if (st.domains.map (fun d => d.name)).contains name then st
  else
    { st with domains := st.domains ++ [⟨st.nextId, name, 0⟩],
              nextId := st.nextId + 1 }

/-- `INSERT IGNORE INTO domain_relationships (parent_id, child_id) VALUES (?, ?)`. -/
def relInsertIgnore (st : Store) (p c : Nat) : Store :=
  if st.rels.contains (p, c) then st
  else { st with rels := st.rels ++ [(p, c)] }

/-- The row update performed by the counter increment: rows whose id
matches get `processed_links + 1`. -/
def bumpRow (id : Nat) (d : DomainRow) : DomainRow :=
  if d.id = id then { d with processed_links := d.processed_links + 1 } else d

/-- `UPDATE domains SET processed_links = processed_links + 1 WHERE id = ?`. -/
def dIncrCounter (st : Store) (id : Nat) : Store :=
  { st with domains := st.domains.map (bumpRow id) }

/-! ## Fault model for the `execute` helper (worker.py lines 37-64)

`execute` runs one statement, commits, and returns the dict
`{'rowcount': …, 'data': cursor.fetchone()}`.  When the statement raises
`mariadb.Error` it instead returns `False` for a non-deadlock error, and
(falling off the end of the handler) `None` for a deadlock.  Subscripting
those sentinels in a caller raises an uncaught `TypeError`. -/

/-- Outcome of one store round-trip, injected by a schedule. -/
inductive DbOutcome where
  | success
  | deadlock
  | otherError
deriving DecidableEq, Repr

/-- A schedule of store outcomes; an exhausted schedule means success. -/
abbrev Faults := List DbOutcome

/-- Pops the next outcome from the schedule. -/
def takeFault : Faults → DbOutcome × Faults
  | [] => (DbOutcome.success, [])
  | f :: fs => (f, fs)

/-- Uncaught Python exceptions of the worker's store layer. -/
inductive PyErr where
  | typeError
deriving DecidableEq, Repr

/-! ## Translated worker functions (worker.py) -/

/-- The path rewrite inside `queue_link` (worker.py lines 89-92): add a
trailing slash when the path is empty or does not end with `/` and its
last `/`-segment contains no dot. -/
def cleanPath (path : String) : String :=
  if path = "" || !(pyEndsWith path "/") then
    if !(pyContainsChar ((pySplitChar path '/').getLastD "") '.') then path ++ "/"
    else path
  else path

/-- The URL normalisation `queue_link` applies before inserting
(worker.py lines 88-93): parse, rewrite the path, and unparse with
params, query and fragment cleared. -/
def cleanedUrl (url : String) : String :=
  let p := urlparse url
  urlunparse ⟨p.scheme, p.netloc, cleanPath p.path, "", "", ""⟩

/-- `queue_link(conn, url)` (worker.py lines 86-105): normalise the URL and
`INSERT IGNORE` it as `pending`; returns `rows_affected > 0`.  When
`execute` reports a store error it returns `False`/`None`, and the
subsequent `result["rowcount"]` raises an uncaught `TypeError` (the
function's own handler only catches `mariadb.Error`). -/
def queue_link (st : Store) (fs : Faults) (url : String) :
    Except PyErr (Bool × Store × Faults) :=
  let cleaned := cleanedUrl url
  let (o, fs) := takeFault fs
  match o with
  | DbOutcome.success =>
    let (rc, st) := qInsertIgnore st cleaned
    Except.ok (rc > 0, st, fs)
  | DbOutcome.deadlock => Except.error PyErr.typeError
  | DbOutcome.otherError => Except.error PyErr.typeError

/-- `fetch_next_pending_link(conn)` (worker.py lines 109-126): select one
pending url, flip it to `processing`, and return it.  With no pending row
the select succeeds with `data = None`, the dict is still truthy, and
`result["data"][0]` raises an uncaught `TypeError`.  When `execute`
itself reports a store error it returns `False`/`None`, which is falsy,
so the function returns `None` (the queue-empty signal). -/
def fetch_next_pending_link (st : Store) (fs : Faults) :
    Except PyErr (Option String × Store × Faults) :=
  let (o, fs) := takeFault fs
  match o with
  | DbOutcome.success =>
    match qSelectPending st with
    | some url =>
      let (o2, fs) := takeFault fs
      match o2 with
      | DbOutcome.success =>
        Except.ok (some url, qUpdateStatus st url Status.processing, fs)
      | _ => Except.ok (some url, st, fs)
    | none => Except.error PyErr.typeError
  | _ => Except.ok (none, st, fs)

/-- `update_link_status(conn, url, status)` (worker.py lines 129-136): the
result of `execute` is ignored, so store errors are absorbed. -/
def update_link_status (st : Store) (fs : Faults) (url : String) (s : Status) :
    Store × Faults :=
  let (o, fs) := takeFault fs
  match o with
  | DbOutcome.success => (qUpdateStatus st url s, fs)
  | _ => (st, fs)

/-- The tail of `store_domain_and_relationship` from the limit check on
(worker.py lines 238-249): skip when the limit is reached, else enqueue
the child URL and, only when a new queue row was inserted, record the
relationship and increment the child domain's counter. -/
def sdrFinish (st : Store) (fs : Faults) (child_url : String)
    (parent_id child_id child_processed_links : Nat) (domain_link_limit : Nat) :
    Except PyErr (Store × Faults) :=
  if domain_link_limit > 0 && child_processed_links ≥ domain_link_limit then
    Except.ok (st, fs)
  else
    match queue_link st fs child_url with
    | Except.error e => Except.error e
    | Except.ok (link_added, st, fs) =>
      if link_added then
        let (o1, fs) := takeFault fs
        let st := match o1 with
          | DbOutcome.success => relInsertIgnore st parent_id child_id
          | _ => st
        let (o2, fs) := takeFault fs
        let st := match o2 with
          | DbOutcome.success => dIncrCounter st child_id
          | _ => st
        Except.ok (st, fs)
      else Except.ok (st, fs)

/-- `store_domain_and_relationship(conn, parent_url, child_url, domain_link_limit)`
(worker.py lines 206-251).  Each `execute` call consumes one scheduled
outcome; a store error on a statement whose result is subscripted
(`result["data"]…`) surfaces as an uncaught `TypeError`, as does a select
whose `data` is `None`. -/
def store_domain_and_relationship (st : Store) (fs : Faults)
    (parent_url child_url : String) (domain_link_limit : Nat) :
    Except PyErr (Store × Faults) :=
  let parent_domain := (urlparse parent_url).netloc
  let (o1, fs) := takeFault fs
  let st := match o1 with
    | DbOutcome.success => dInsertIgnore st parent_domain
    | _ => st
  let (o2, fs) := takeFault fs
  match o2 with
  | DbOutcome.success =>
    match dSelect st parent_domain with
    | none => Except.error PyErr.typeError
    | some pr =>
      let parent_id := pr.1
      let child_domain := (urlparse child_url).netloc
      let (o3, fs) := takeFault fs
      match o3 with
      | DbOutcome.success =>
        match dSelect st child_domain with
        | some cd => sdrFinish st fs child_url parent_id cd.1 cd.2 domain_link_limit
        | none =>
          let (o4, fs) := takeFault fs
          let st := match o4 with
            | DbOutcome.success => dInsertIgnore st child_domain
            | _ => st
          let (o5, fs) := takeFault fs
          match o5 with
          | DbOutcome.success =>
            match dSelect st child_domain with
            | some cd => sdrFinish st fs child_url parent_id cd.1 cd.2 domain_link_limit
            | none => Except.error PyErr.typeError
          | _ => Except.error PyErr.typeError
      | _ => Except.error PyErr.typeError
  | _ => Except.error PyErr.typeError

/-- The loop body of `process_single_link` over the discovered links
(worker.py lines 260-261). -/
def processLinks (st : Store) (fs : Faults) (parent : String)
    (links : List String) (domain_link_limit : Nat) :
    Except PyErr (Store × Faults) :=
  match links with
  | [] => Except.ok (st, fs)
  | l :: rest =>
    match store_domain_and_relationship st fs parent l domain_link_limit with
    | Except.error e => Except.error e
    | Except.ok (st, fs) => processLinks st fs parent rest domain_link_limit

/-- `process_single_link(conn, link, domain_link_limit)` (worker.py lines
254-261), with the network abstracted: `links` is the value returned by
`extract_links_from_page` (`none` = the unreachable signal). -/
def process_single_link (st : Store) (fs : Faults) (link : String)
    (links : Option (List String)) (domain_link_limit : Nat) :
    Except PyErr (Store × Faults) :=
  match links with
  | none => Except.ok (update_link_status st fs link Status.unreachable)
  | some ls => processLinks st fs link ls domain_link_limit

/-- One iteration body of the main loop after a successful claim
(worker.py lines 280-281): process the link, then unconditionally set its
status to `done`. -/
def workerLoopBody (st : Store) (fs : Faults) (link : String)
    (links : Option (List String)) (domain_link_limit : Nat) :
    Except PyErr (Store × Faults) :=
  match process_single_link st fs link links domain_link_limit with
  | Except.error e => Except.error e
  | Except.ok (st, fs) => Except.ok (update_link_status st fs link Status.done)

/-- The `while True` main loop (worker.py lines 274-281), fuel-indexed.
`extract` abstracts `extract_links_from_page`.  Returns the final store
and `true` when the loop left through the clean queue-empty break,
`false` when the fuel ran out with the loop still running. -/
def workerLoop : Nat → Store → Faults → (String → Option (List String)) → Nat →
    Except PyErr (Store × Bool)
  | 0, st, _, _, _ => Except.ok (st, false)
  | fuel + 1, st, fs, extract, domain_link_limit =>
    match fetch_next_pending_link st fs with
    | Except.error e => Except.error e
    | Except.ok (none, st, _) => Except.ok (st, true)
    | Except.ok (some link, st, fs) =>
      match workerLoopBody st fs link (extract link) domain_link_limit with
      | Except.error e => Except.error e
      | Except.ok (st, fs) => workerLoop fuel st fs extract domain_link_limit

/-- `execute_with_retry(cursor, query, params, retries, delay)` (worker.py
lines 67-83): up to `retries` attempts; a deadlock sleeps `delay` seconds
and retries, any other store error returns `False` at once, success
returns `True`.  Returns (result, remaining schedule, attempts made,
total seconds slept). -/
def execute_with_retry : Faults → Nat → Nat → Bool × Faults × Nat × Nat
  | fs, 0, _ => (false, fs, 0, 0)
  | fs, retries + 1, delay =>
    let (o, fs) := takeFault fs
    match o with
    | DbOutcome.success => (true, fs, 1, 0)
    | DbOutcome.otherError => (false, fs, 1, 0)
    | DbOutcome.deadlock =>
      let r := execute_with_retry fs retries delay
      (r.1, r.2.1, r.2.2.1 + 1, r.2.2.2 + delay)

/-! ## Robots compliance filter (worker.py lines 139-173) -/

/-- The configured client identity (worker.py line 18). -/
def USER_AGENT : String :=
  "Mozilla/5.0 (compatible; MapWWWBot/1.0; +http://map-the-internet.theravenhub.com/botinfo)"

/-- The acceptable agent tokens (worker.py lines 149-154): the full
identity, its part before the first `/`, and that part with the first
word of what follows the `/`. -/
def user_agent_variants : List String :=
  let parts := pySplitChar USER_AGENT '/'
  let v := [USER_AGENT] ++ [parts.headD ""]
  if parts.length > 1 then
    v ++ [(parts.headD "") ++ "/" ++ ((pySplitChar ((parts.drop 1).headD "") ' ').headD "")]
  else v

/-- The line loop of `is_crawling_allowed` (worker.py lines 156-162):
strip each line, track the current user-agent, and collect
`(current_user_agent, disallow_path)` pairs; a `Disallow:` line counts
only under a nonempty current user-agent. -/
def robotsLinesLoop : List String → Option String → List (String × String) →
    List (String × String)
  | [], _, acc => acc
  | line :: rest, cur, acc =>
    let l := pyStrip line
    if pyStartsWith l "User-agent:" then
      robotsLinesLoop rest (some (pyStrip (pySecondPiece l ':'))) acc
    else
      match cur with
      | some ua =>
        if pyStartsWith l "Disallow:" && ua ≠ "" then
          robotsLinesLoop rest cur (acc ++ [(ua, pyStrip (pyAfterFirst l ':'))])
        else robotsLinesLoop rest cur acc
      | none => robotsLinesLoop rest cur acc

/-- The rules parsed from a robots.txt body. -/
def robotsRules (body : String) : List (String × String) :=
  robotsLinesLoop (pySplitChar body '\n') none []

/-- The applicable nonempty disallow paths (worker.py lines 164-167): rules
whose user-agent is `*` or one of the acceptable tokens. -/
def applicableDisallows (rules : List (String × String)) : List String :=
  (rules.filter
    (fun r => ("*" :: user_agent_variants).contains r.1 && r.2 ≠ "")).map
    (fun r => r.2)

/-- `is_crawling_allowed(base_url)` (worker.py lines 139-173), with the
network abstracted: `status` and `body` are the robots.txt response.  A
non-200 status returns `true` (fail-open; network exceptions take the
same fail-open path and are not modelled further).  On 200, crawling is
allowed unless the base URL starts with some applicable disallow path
resolved against the base URL. -/
def is_crawling_allowed (base_url : String) (status : Nat) (body : String) : Bool :=
  if status = 200 then
    let disallows := applicableDisallows (robotsRules body)
    !(disallows.any (fun d => pyStartsWith base_url (urljoin base_url d)))
  else true

/-! ## Link extractor filter (worker.py lines 186-200) -/

/-- The allowlist of path endings (worker.py line 198); note that it
contains the empty string. -/
def allowedExtensions : List String :=
  ["", "/", ".html", ".htm", ".php", ".asp", ".aspx", ".jsp", ".cfm",
   ".shtml", ".xhtml", ".rhtml", ".phtml", ".cgi", ".pl"]

/-- The path-shape test of `extract_links_from_page`:
`any(parsed_url.path.endswith(ext) for ext in [...])`. -/
def pathShapeOk (path : String) : Bool :=
  allowedExtensions.any (fun e => pyEndsWith path e)

/-- One anchor of the extraction loop (worker.py lines 187-199): resolve
the href against the base URL, keep it when the scheme is http/https,
`validators.url` accepts it, and the path-shape test passes.  `links` is
the accumulated set, modelled as a duplicate-free list. -/
def extractLinksStep (valid : String → Bool) (base : String)
    (links : List String) (href : String) : List String :=
  let absolute_url := urljoin base href
  let p := urlparse absolute_url
  if p.scheme = "http" || p.scheme = "https" then
    if !(valid absolute_url) then links
    else if pathShapeOk p.path then
      if links.contains absolute_url then links else links ++ [absolute_url]
    else links
  else links

/-- The pure core of `extract_links_from_page(base_url)` (worker.py lines
186-200): the robots check and HTTP fetch are abstracted away, `hrefs`
being the href attributes of the fetched page's anchors and `valid` the
external `validators.url` predicate. -/
def extract_links_from_page (valid : String → Bool) (base : String)
    (hrefs : List String) : List String :=
  hrefs.foldl (extractLinksStep valid base) []

/-! ## Runs and interleavings -/

/-- `store_domain_and_relationship` on the fault-free schedule, as a plain
store transformer (the error case never occurs on `[]`, see
`store_domain_and_relationship_nofault_ok`). -/
def sdrRun (st : Store) (p c : String) (limit : Nat) : Store :=
  match store_domain_and_relationship st [] p c limit with
  | Except.ok r => r.1
  | Except.error _ => st

/-- A fault-free single-worker run over a list of (parent page,
discovered link) steps, in processing order. -/
def runWorkerSteps (limit : Nat) (steps : List (String × String)) (st : Store) : Store :=
  steps.foldl (fun s pc => sdrRun s pc.1 pc.2 limit) st

/-- Equality of `Except` results is decidable componentwise. -/
instance {ε α : Type} [DecidableEq ε] [DecidableEq α] : DecidableEq (Except ε α) :=
  fun x y =>
  match x, y with
  | Except.ok a, Except.ok b =>
    if h : a = b then isTrue (by rw [h])
    else isFalse (by intro hc; cases hc; exact h rfl)
  | Except.error a, Except.error b =>
    if h : a = b then isTrue (by rw [h])
    else isFalse (by intro hc; cases hc; exact h rfl)
  | Except.ok _, Except.error _ => isFalse (by intro hc; cases hc)
  | Except.error _, Except.ok _ => isFalse (by intro hc; cases hc)

/-- Program counter of one worker executing `fetch_next_pending_link`,
decomposed at statement granularity: `fetched` is the result of its
`SELECT` once issued, `ret` its return value (or uncaught exception) once
finished.  Each statement is atomic (`execute` commits per statement),
but nothing links the two statements into one transaction — the `SELECT`
takes no lock (`FOR UPDATE` is absent in worker.py line 115). -/
structure ClaimPC where
  fetched : Option (Option String)
  ret : Option (Except PyErr (Option String))
deriving DecidableEq, Repr

/-- A worker that has not started its claim. -/
def claimInit : ClaimPC := ⟨none, none⟩

/-- One atomic step of a worker's claim operation: first the `SELECT` of a
pending url, then either the `UPDATE … SET status='processing'` returning
the url, or (on an empty select) the uncaught `TypeError` of
`result["data"][0]`. -/
def claimStep (st : Store) (w : ClaimPC) : Store × ClaimPC :=
  match w.fetched, w.ret with
  | none, _ => (st, { w with fetched := some (qSelectPending st) })
  | some (some url), none =>
    (qUpdateStatus st url Status.processing,
     { w with ret := some (Except.ok (some url)) })
  | some none, none => (st, { w with ret := some (Except.error PyErr.typeError) })
  | some _, some _ => (st, w)

/-- Identities of two concurrently claiming workers. -/
inductive Wid where
  | w1
  | w2
deriving DecidableEq, Repr

/-- Joint state of the store and two claiming workers. -/
structure TwoWorkers where
  st : Store
  a : ClaimPC
  b : ClaimPC
deriving DecidableEq, Repr

/-- The scheduled worker performs its next atomic statement. -/
def twoStep (s : TwoWorkers) (w : Wid) : TwoWorkers :=
  match w with
  | Wid.w1 =>
    let p := claimStep s.st s.a
    ⟨p.1, p.2, s.b⟩
  | Wid.w2 =>
    let p := claimStep s.st s.b
    ⟨p.1, s.a, p.2⟩

/-- Runs a schedule of interleaved atomic statements. -/
def runSchedule (s : TwoWorkers) : List Wid → TwoWorkers
  | [] => s
  | w :: rest => runSchedule (twoStep s w) rest

/-! ## Derived observations and well-formedness -/

/-- The `processed_links` counter of the domain row named `name`
(0 when the domain is absent). -/
def counterOf (st : Store) (name : String) : Nat :=
  ((dSelect st name).getD (0, 0)).2

/-- The number of relationship rows whose child is the domain named
`name` (0 when the domain is absent). -/
def relCountTo (st : Store) (name : String) : Nat :=
  match dSelect st name with
  | some x => (st.rels.filter (fun r => r.2 == x.1)).length
  | none => 0

/-- Distinctness of domain names and ids, row by row. -/
def wfDomains : List DomainRow → Bool
  | [] => true
  | d :: rest =>
    rest.all (fun e => !(e.name == d.name) && !(e.id == d.id)) && wfDomains rest

/-- Store well-formedness: domain names and ids are unique, every domain
id and every relationship child id is below the auto-increment counter. -/
def WF (st : Store) : Bool :=
  wfDomains st.domains &&
  st.domains.all (fun d => d.id < st.nextId) &&
  st.rels.all (fun r => r.2 < st.nextId)

/-- The store computed by `store_domain_and_relationship` on the
fault-free schedule, written as a plain case split; the bridge theorem
`store_domain_and_relationship_nofault` proves it equal to the translated
function. -/
def sdrNF (st : Store) (p c : String) (limit : Nat) : Store :=
  let st1 := dInsertIgnore st (urlparse p).netloc
  let st2 := dInsertIgnore st1 (urlparse c).netloc
  let pid := ((dSelect st1 (urlparse p).netloc).getD (0, 0)).1
  let cd := (dSelect st2 (urlparse c).netloc).getD (0, 0)
  if limit > 0 && cd.2 ≥ limit then st2
  else
    let q := qInsertIgnore st2 (cleanedUrl c)
    if q.1 > 0 then dIncrCounter (relInsertIgnore q.2 pid cd.1) cd.1
    else q.2

/-- Modelled from the spec (§4.1): "strip query string and fragment; if
the path's last segment contains no dot …, ensure the path ends with a
trailing slash, inserting one if absent; otherwise leave the path
unchanged" — the path policy, stated directly in the spec's words. -/
def specNormalizePath (path : String) : String :=
  if !(pyContainsChar ((pySplitChar path '/').getLastD "") '.')
      && !(pyEndsWith path "/") then
    path ++ "/"
  else path

/-! ## Theorems -/

/-- C1: the claim fails on the code.  For a claimed entry whose link
extraction yields the unreachable signal, `process_single_link` does set
the status to `unreachable`, but the main loop (worker.py line 281) then
unconditionally sets it to `done`: the entry is set to both terminal
statuses and ends as `done`, so `unreachable` is not terminal for the
core. -/
theorem c1_unreachable_overwritten_to_done :
    (process_single_link ⟨[("http://a.test/", Status.processing)], [], [], 0⟩ []
        "http://a.test/" none 0 =
      Except.ok (⟨[("http://a.test/", Status.unreachable)], [], [], 0⟩, [])) ∧
    (workerLoopBody ⟨[("http://a.test/", Status.processing)], [], [], 0⟩ []
        "http://a.test/" none 0 =
      Except.ok (⟨[("http://a.test/", Status.done)], [], [], 0⟩, [])) := by
  exact ⟨rfl, rfl⟩

/-- C2: the claim fails on the code.  With zero pending rows the select
succeeds with `data = None`, but the returned dict is truthy, so
`fetch_next_pending_link` evaluates `None[0]` and raises an uncaught
`TypeError` (`except mariadb.Error` does not catch it) instead of
returning the queue-empty signal; the worker loop therefore crashes
rather than terminating cleanly. -/
theorem c2_empty_queue_typeerror :
    (fetch_next_pending_link ⟨[], [], [], 0⟩ [] = Except.error PyErr.typeError) ∧
    (fetch_next_pending_link ⟨[("http://a.test/", Status.done)], [], [], 0⟩ [] =
      Except.error PyErr.typeError) ∧
    (workerLoop 1 ⟨[], [], [], 0⟩ [] (fun _ => none) 0 =
      Except.error PyErr.typeError) := by
  exact ⟨rfl, rfl, rfl⟩

/-- C3: the claim fails on the code.  When the store reports a
non-deadlock error during the enqueue `INSERT`, `execute` returns
`False`; `queue_link` then evaluates `False["rowcount"]`, raising an
uncaught `TypeError` that propagates through
`store_domain_and_relationship` (whose handler only catches
`mariadb.Error`) and crashes the worker loop. -/
theorem c3_store_error_typeerror :
    (queue_link ⟨[], [], [], 0⟩ [DbOutcome.otherError] "http://b.test/x" =
      Except.error PyErr.typeError) ∧
    (store_domain_and_relationship ⟨[("http://a.test/", Status.processing)], [], [], 0⟩
        [DbOutcome.success, DbOutcome.success, DbOutcome.success, DbOutcome.success,
         DbOutcome.success, DbOutcome.otherError]
        "http://a.test/" "http://b.test/page" 0 =
      Except.error PyErr.typeError) ∧
    (workerLoop 1 ⟨[("http://a.test/", Status.pending)], [], [], 0⟩
        [DbOutcome.success, DbOutcome.success, DbOutcome.success, DbOutcome.success,
         DbOutcome.success, DbOutcome.success, DbOutcome.success, DbOutcome.otherError]
        (fun _ => some ["http://b.test/page"]) 0 =
      Except.error PyErr.typeError) := by
  exact ⟨rfl, rfl, rfl⟩

/-- C4 counterexample: a deadlock reported on a worker-loop store
mutation is not retried.  On the schedule "first attempt deadlocks, a
second attempt would succeed", `queue_link`'s mutation is abandoned at
once (`execute` returns `None`, whose subscripting raises `TypeError`),
while the unused helper `execute_with_retry` on the same schedule would
retry and succeed after one 1-second sleep. -/
theorem c4_counterexample_no_retry :
    (queue_link ⟨[], [], [], 0⟩ [DbOutcome.deadlock, DbOutcome.success]
        "http://a.test/" = Except.error PyErr.typeError) ∧
    (execute_with_retry [DbOutcome.deadlock, DbOutcome.success] 3 1 =
      (true, [], 2, 1)) := by
  exact ⟨rfl, rfl⟩

/-- C9: the claim fails on the code.  `fetch_next_pending_link` issues a
plain `SELECT` (no `FOR UPDATE`) and a separate `UPDATE`, each committed
by `execute`, so nothing serialises two claimants: on a queue holding the
single pending row `http://a.test/`, the interleaving select₁ select₂
update₁ update₂ makes both workers return that same URL. -/
theorem c9_double_claim :
    (runSchedule ⟨⟨[("http://a.test/", Status.pending)], [], [], 0⟩,
        claimInit, claimInit⟩ [Wid.w1, Wid.w2, Wid.w1, Wid.w2]).a.ret =
      some (Except.ok (some "http://a.test/")) ∧
    (runSchedule ⟨⟨[("http://a.test/", Status.pending)], [], [], 0⟩,
        claimInit, claimInit⟩ [Wid.w1, Wid.w2, Wid.w1, Wid.w2]).b.ret =
      some (Except.ok (some "http://a.test/")) := by
  exact ⟨rfl, rfl⟩

/-- C4 (amended): the worker loop's store mutations go through `execute`,
which makes exactly one attempt per statement — a deadlock abandons the
operation immediately (the remaining schedule is never consulted, and
callers that subscript the result then fail), and any other store error
likewise abandons it — while the helper `execute_with_retry` (which the
loop never calls) implements the bounded policy: at most `retries`
attempts, immediate abandonment on a non-deadlock error. -/
theorem c4_no_retry_in_loop_amended :
    (∀ (st : Store) (fs : Faults) (u : String),
      queue_link st (DbOutcome.deadlock :: fs) u = Except.error PyErr.typeError) ∧
    (∀ (st : Store) (fs : Faults) (u : String),
      queue_link st (DbOutcome.otherError :: fs) u = Except.error PyErr.typeError) ∧
    (∀ (st : Store) (fs : Faults) (u : String) (s : Status),
      update_link_status st (DbOutcome.deadlock :: fs) u s = (st, fs)) ∧
    (∀ (st : Store) (fs : Faults) (u : String) (s : Status),
      update_link_status st (DbOutcome.otherError :: fs) u s = (st, fs)) ∧
    (∀ (fs : Faults) (retries delay : Nat),
      (execute_with_retry fs retries delay).2.2.1 ≤ retries) ∧
    (∀ (fs : Faults) (retries delay : Nat),
      execute_with_retry (DbOutcome.otherError :: fs) (retries + 1) delay =
        (false, fs, 1, 0)) := by
  refine ⟨fun _ _ _ => rfl, fun _ _ _ => rfl, fun _ _ _ _ => rfl,
    fun _ _ _ _ => rfl, ?_, fun _ _ _ => rfl⟩
  intro fs retries delay
  induction retries generalizing fs with
  | zero => simp [execute_with_retry]
  | succ n ih =>
    cases fs with
    | nil => simp [execute_with_retry, takeFault]
    | cons o rest =>
      cases o with
      | success => simp [execute_with_retry, takeFault]
      | deadlock =>
        simpa [execute_with_retry, takeFault] using Nat.succ_le_succ (ih rest)
      | otherError => simp [execute_with_retry, takeFault]

/-- C7: the normalization applied before enqueuing depends only on the
parsed scheme, netloc and path (query and fragment are stripped); its
path policy coincides with the spec's wording (append one trailing slash
exactly when the last segment has no dot and the slash is absent); and
the two example spellings of the same resource normalize to the same
canonical key. -/
theorem c7_normalization :
    (∀ u v : String,
       (urlparse u).scheme = (urlparse v).scheme →
       (urlparse u).netloc = (urlparse v).netloc →
       (urlparse u).path = (urlparse v).path →
       cleanedUrl u = cleanedUrl v) ∧
    (∀ path, cleanPath path = specNormalizePath path) ∧
    (cleanedUrl "http://a.com/x" = "http://a.com/x/" ∧
     cleanedUrl "http://a.com/x?ref=1#frag" = "http://a.com/x/") := by
  refine ⟨?_, ?_, by decide, by decide⟩
  · intro u v h1 h2 h3
    simp only [cleanedUrl]
    rw [h1, h2, h3]
  · intro path
    by_cases he : pyEndsWith path "/" = true
    · have hne : path ≠ "" := by
        intro h
        rw [h] at he
        exact absurd he (by decide)
      simp [cleanPath, specNormalizePath, he, hne]
    · rw [Bool.not_eq_true] at he
      by_cases hp : path = ""
      · rw [hp]; decide
      · simp [cleanPath, specNormalizePath, he, hp]

/-- C8: on a retrieved robots.txt, crawling is denied exactly when some
parsed rule whose governing user-agent is `*` or an acceptable
client-identity token has a nonempty disallow path such that the base URL
starts with that path resolved against the base URL; in particular the
`User-agent: *` / `Disallow: /private` body denies
`http://site/private/x` and permits `http://site/public`. -/
theorem c8_robots_disallow :
    (∀ (base body : String),
       is_crawling_allowed base 200 body = false ↔
         ∃ r ∈ robotsRules body,
           (r.1 = "*" ∨ r.1 ∈ user_agent_variants) ∧ r.2 ≠ "" ∧
           pyStartsWith base (urljoin base r.2) = true) ∧
    (is_crawling_allowed "http://site/private/x" 200
        "User-agent: *\nDisallow: /private" = false) ∧
    (is_crawling_allowed "http://site/public" 200
        "User-agent: *\nDisallow: /private" = true) := by
  refine ⟨?_, by decide, by decide⟩
  intro base body
  have h : is_crawling_allowed base 200 body =
      !((applicableDisallows (robotsRules body)).any
        (fun d => pyStartsWith base (urljoin base d))) := rfl
  rw [h, Bool.not_eq_false']
  simp only [applicableDisallows, List.any_eq_true, List.mem_map,
    List.mem_filter, Bool.and_eq_true, List.contains, List.elem_iff,
    decide_eq_true_eq, List.mem_cons]
  constructor
  · rintro ⟨d, ⟨r, ⟨hmem, hua, hne⟩, hd⟩, hsw⟩
    exact ⟨r, hmem, hua, hne, by rw [hd]; exact hsw⟩
  · rintro ⟨r, hmem, hua, hne, hsw⟩
    exact ⟨r.2, ⟨r, ⟨hmem, hua, hne⟩, rfl⟩, hsw⟩

/-- The path-shape allowlist accepts every path, because its first entry
is the empty string and every string ends with the empty suffix. -/
theorem pathShapeOk_true (path : String) : pathShapeOk path = true := by
  simp [pathShapeOk, allowedExtensions, pyEndsWith, List.isSuffixOf]

/-- Links already accumulated survive the extraction fold. -/
theorem extract_mem_of_mem_acc (valid : String → Bool) (base : String)
    (hrefs : List String) (acc : List String) (x : String) :
    x ∈ acc → x ∈ hrefs.foldl (extractLinksStep valid base) acc := by
  induction hrefs generalizing acc with
  | nil => intro hx; simpa using hx
  | cons h t ih =>
    intro hx
    rw [List.foldl_cons]
    apply ih
    simp only [extractLinksStep]
    split_ifs <;> first | exact hx | exact List.mem_append_left _ hx

/-- A listed href whose resolution has an http(s) scheme and passes the
validity predicate ends up in the extraction fold's result. -/
theorem extract_adds (valid : String → Bool) (base : String)
    (hrefs : List String) (href : String) (acc : List String) :
    href ∈ hrefs →
    ((urlparse (urljoin base href)).scheme = "http" ∨
     (urlparse (urljoin base href)).scheme = "https") →
    valid (urljoin base href) = true →
    urljoin base href ∈ hrefs.foldl (extractLinksStep valid base) acc := by
  induction hrefs generalizing acc with
  | nil => intro hin; cases hin
  | cons hd t ih =>
    intro hin hscheme hvalid
    rw [List.foldl_cons]
    rcases List.mem_cons.mp hin with heq | hmem
    · rw [← heq]
      apply extract_mem_of_mem_acc
      have hshape := pathShapeOk_true (urlparse (urljoin base href)).path
      simp only [extractLinksStep, hvalid, hshape]
      have hs : (decide ((urlparse (urljoin base href)).scheme = "http") ||
          decide ((urlparse (urljoin base href)).scheme = "https")) = true := by
        rcases hscheme with hs | hs <;> simp [hs]
      rw [hs]
      simp only [if_true, Bool.not_true, Bool.false_eq_true, if_false]
      split
      · rename_i hc
        exact List.elem_iff.mp hc
      · exact List.mem_append_right _ (List.mem_singleton.mpr rfl)
    · exact ih _ hmem hscheme hvalid

/-- C10: the path-shape test accepts every path (the allowlist contains
the empty string, and every path ends with it), so every anchor whose
resolved URL has scheme http or https and passes the well-formedness
predicate is kept by `extract_links_from_page`, regardless of extension —
including non-document resources such as `.pdf`. -/
theorem c10_extension_filter_accepts_all :
    (∀ path, pathShapeOk path = true) ∧
    (∀ (valid : String → Bool) (base : String) (hrefs : List String)
       (href : String),
       href ∈ hrefs →
       ((urlparse (urljoin base href)).scheme = "http" ∨
        (urlparse (urljoin base href)).scheme = "https") →
       valid (urljoin base href) = true →
       urljoin base href ∈ extract_links_from_page valid base hrefs) ∧
    ("http://a.test/file.pdf" ∈
      extract_links_from_page (fun _ => true) "http://a.test/" ["/file.pdf"]) := by
  refine ⟨pathShapeOk_true, ?_, by decide⟩
  intro valid base hrefs href hin hs hv
  exact extract_adds valid base hrefs href [] hin hs hv

/-- C10 witness: a `.jpg` link is kept at a concrete input. -/
theorem c10_witness :
    "http://b.test/img.jpg" ∈
      extract_links_from_page (fun _ => true) "http://a.test/"
        ["http://b.test/img.jpg"] := by
  have h := c10_extension_filter_accepts_all.2.1 (fun _ => true) "http://a.test/"
    ["http://b.test/img.jpg"] "http://b.test/img.jpg" (by decide) (by decide) rfl
  have he : urljoin "http://a.test/" "http://b.test/img.jpg" =
      "http://b.test/img.jpg" := by decide
  rw [he] at h
  exact h

/-- C7 witness: the two example spellings have equal parse components
outside query/fragment, so the claim's universal part applies to them. -/
theorem c7_witness :
    cleanedUrl "http://a.com/x" = cleanedUrl "http://a.com/x?ref=1#frag" :=
  c7_normalization.1 "http://a.com/x" "http://a.com/x?ref=1#frag"
    (by decide) (by decide) (by decide)

/-! ### Store-operation lemmas -/

/-- Appending one element to the search list extends `find?` on the right. -/
theorem find?_append_single {α : Type} (l : List α) (x : α) (p : α → Bool) :
    (l ++ [x]).find? p =
      match l.find? p with
      | some y => some y
      | none => if p x then some x else none := by
  rw [List.find?_append]
  cases h : l.find? p with
  | some y => rfl
  | none =>
    cases hx : p x <;> simp [List.find?, hx, Option.or]

/-- Domain creation does not touch the queue. -/
theorem dInsertIgnore_queue (st : Store) (n : String) :
    (dInsertIgnore st n).queue = st.queue := by
  unfold dInsertIgnore; split <;> rfl

/-- Domain creation does not touch the relationships. -/
theorem dInsertIgnore_rels (st : Store) (n : String) :
    (dInsertIgnore st n).rels = st.rels := by
  unfold dInsertIgnore; split <;> rfl

/-- A successful domain select means the name list contains the name. -/
theorem contains_of_dSelect_some {st : Store} {n : String} {x : Nat × Nat}
    (h : dSelect st n = some x) :
    (st.domains.map (fun d => d.name)).contains n = true := by
  unfold dSelect at h
  obtain ⟨d, hfind, -⟩ := Option.map_eq_some'.mp h
  have hmem := List.mem_of_find?_eq_some hfind
  have hname : d.name = n := by simpa using List.find?_some hfind
  exact List.elem_iff.mpr (List.mem_map.mpr ⟨d, hmem, hname⟩)

/-- Creating an already-present domain is the identity. -/
theorem dInsertIgnore_of_dSelect_some {st : Store} {n : String} {x : Nat × Nat}
    (h : dSelect st n = some x) : dInsertIgnore st n = st := by
  unfold dInsertIgnore
  rw [if_pos (contains_of_dSelect_some h)]

/-- How a domain select reads through a domain creation. -/
theorem dSelect_dInsertIgnore (st : Store) (n m : String) :
    dSelect (dInsertIgnore st n) m =
      match dSelect st m with
      | some x => some x
      | none => if m = n then some (st.nextId, 0) else none := by
  by_cases hc : (st.domains.map (fun d => d.name)).contains n = true
  · have hid : dInsertIgnore st n = st := by unfold dInsertIgnore; rw [if_pos hc]
    rw [hid]
    cases h : dSelect st m with
    | some x => rfl
    | none =>
      by_cases hmn : m = n
      · subst hmn
        exfalso
        obtain ⟨d, hd, hdn⟩ := List.mem_map.mp (List.elem_iff.mp hc)
        unfold dSelect at h
        rw [Option.map_eq_none', List.find?_eq_none] at h
        exact (h d hd) (by simpa using hdn)
      · simp [hmn]
  · have hins : (dInsertIgnore st n).domains =
        st.domains ++ [⟨st.nextId, n, 0⟩] := by
      unfold dInsertIgnore; rw [if_neg hc]
    unfold dSelect
    rw [hins, find?_append_single]
    cases h : st.domains.find? (fun d => d.name == m) with
    | some d => rfl
    | none =>
      by_cases hmn : m = n
      · subst hmn; simp
      · have hnm : ¬(n = m) := fun he => hmn he.symm
        simp [hmn, hnm]

/-- After creating a domain, selecting it succeeds, keeping an existing
row unchanged and giving a fresh row the next id and counter 0. -/
theorem dSelect_dInsertIgnore_self (st : Store) (n : String) :
    dSelect (dInsertIgnore st n) n =
      some ((dSelect st n).getD (st.nextId, 0)) := by
  rw [dSelect_dInsertIgnore]
  cases h : dSelect st n with
  | some x => rfl
  | none => simp

/-- Domain creation never changes any counter value. -/
theorem counterOf_dInsertIgnore (st : Store) (n m : String) :
    counterOf (dInsertIgnore st n) m = counterOf st m := by
  unfold counterOf
  rw [dSelect_dInsertIgnore]
  cases h : dSelect st m with
  | some x => rfl
  | none => by_cases hmn : m = n <;> simp [hmn]

/-- Under the freshness invariant, domain creation never changes the
relationship count towards any domain. -/
theorem relCountTo_dInsertIgnore (st : Store) (n m : String)
    (hrels : ∀ r ∈ st.rels, r.2 < st.nextId) :
    relCountTo (dInsertIgnore st n) m = relCountTo st m := by
  unfold relCountTo
  rw [dSelect_dInsertIgnore, dInsertIgnore_rels]
  cases h : dSelect st m with
  | some x => rfl
  | none =>
    by_cases hmn : m = n
    · subst hmn
      have hnil : st.rels.filter (fun r => r.2 == st.nextId) = [] := by
        rw [List.filter_eq_nil_iff]
        intro r hr
        simp only [beq_iff_eq]
        exact Nat.ne_of_lt (hrels r hr)
      simp [hnil]
    · simp [hmn]

/-- Appending a row with a fresh name and id preserves row distinctness. -/
theorem wfDomains_append_single (l : List DomainRow) (x : DomainRow)
    (hl : wfDomains l = true)
    (hx : ∀ d ∈ l, d.name ≠ x.name ∧ d.id ≠ x.id) :
    wfDomains (l ++ [x]) = true := by
  induction l with
  | nil => simp [wfDomains]
  | cons a t ih =>
    rw [List.cons_append]
    unfold wfDomains at hl ⊢
    rw [Bool.and_eq_true] at hl ⊢
    obtain ⟨ha, ht⟩ := hl
    constructor
    · rw [List.all_eq_true] at ha ⊢
      intro e he
      rcases List.mem_append.mp he with hm | hm
      · exact ha e hm
      · rw [List.mem_singleton] at hm
        subst hm
        have h2 := hx a (List.mem_cons_self a t)
        simp only [Bool.and_eq_true, Bool.not_eq_true', beq_eq_false_iff_ne]
        exact ⟨fun he2 => h2.1 he2.symm, fun he2 => h2.2 he2.symm⟩
    · exact ih ht (fun d hd => hx d (List.mem_cons_of_mem a hd))

/-- Unfolding of store well-formedness into its three clauses. -/
theorem WF_iff (st : Store) :
    WF st = true ↔
      wfDomains st.domains = true ∧
      (∀ d ∈ st.domains, d.id < st.nextId) ∧
      (∀ r ∈ st.rels, r.2 < st.nextId) := by
  unfold WF
  simp [Bool.and_eq_true, List.all_eq_true, and_assoc]

/-- Domain creation preserves well-formedness. -/
theorem WF_dInsertIgnore {st : Store} (n : String) (h : WF st = true) :
    WF (dInsertIgnore st n) = true := by
  rw [WF_iff] at h
  obtain ⟨hwfd, hids, hrels⟩ := h
  by_cases hc : (st.domains.map (fun d => d.name)).contains n = true
  · have hid : dInsertIgnore st n = st := by unfold dInsertIgnore; rw [if_pos hc]
    rw [hid, WF_iff]
    exact ⟨hwfd, hids, hrels⟩
  · have hins : dInsertIgnore st n =
        { st with domains := st.domains ++ [⟨st.nextId, n, 0⟩],
                  nextId := st.nextId + 1 } := by
      unfold dInsertIgnore; rw [if_neg hc]
    rw [hins, WF_iff]
    refine ⟨?_, ?_, ?_⟩
    · apply wfDomains_append_single _ _ hwfd
      intro d hd
      constructor
      · intro he
        exact hc (List.elem_iff.mpr (List.mem_map.mpr ⟨d, hd, he⟩))
      · exact Nat.ne_of_lt (hids d hd)
    · intro d hd
      rcases List.mem_append.mp hd with hm | hm
      · exact Nat.lt_succ_of_lt (hids d hm)
      · rw [List.mem_singleton] at hm
        subst hm
        exact Nat.lt_succ_self _
    · intro r hr
      exact Nat.lt_succ_of_lt (hrels r hr)

/-- Enqueuing touches only the queue. -/
theorem qInsertIgnore_domains (st : Store) (u : String) :
    ((qInsertIgnore st u).2).domains = st.domains := by
  unfold qInsertIgnore; split <;> rfl

/-- Enqueuing touches only the queue. -/
theorem qInsertIgnore_rels (st : Store) (u : String) :
    ((qInsertIgnore st u).2).rels = st.rels := by
  unfold qInsertIgnore; split <;> rfl

/-- Enqueuing touches only the queue. -/
theorem qInsertIgnore_nextId (st : Store) (u : String) :
    ((qInsertIgnore st u).2).nextId = st.nextId := by
  unfold qInsertIgnore; split <;> rfl

/-- Domain selects read through an enqueue. -/
theorem dSelect_qInsertIgnore (st : Store) (u m : String) :
    dSelect (qInsertIgnore st u).2 m = dSelect st m := by
  unfold dSelect; rw [qInsertIgnore_domains]

/-- Counters read through an enqueue. -/
theorem counterOf_qInsertIgnore (st : Store) (u m : String) :
    counterOf (qInsertIgnore st u).2 m = counterOf st m := by
  unfold counterOf; rw [dSelect_qInsertIgnore]

/-- Relationship counts read through an enqueue. -/
theorem relCountTo_qInsertIgnore (st : Store) (u m : String) :
    relCountTo (qInsertIgnore st u).2 m = relCountTo st m := by
  unfold relCountTo; rw [dSelect_qInsertIgnore, qInsertIgnore_rels]

/-- Enqueuing preserves well-formedness. -/
theorem WF_qInsertIgnore (st : Store) (u : String) (h : WF st = true) :
    WF (qInsertIgnore st u).2 = true := by
  rw [WF_iff] at h ⊢
  rw [qInsertIgnore_domains, qInsertIgnore_rels, qInsertIgnore_nextId]
  exact h

/-- A present URL makes the enqueue a no-op with rowcount 0. -/
theorem qInsertIgnore_of_mem {st : Store} {u : String}
    (h : u ∈ st.queue.map (fun r => r.1)) : qInsertIgnore st u = (0, st) := by
  unfold qInsertIgnore
  rw [if_pos (List.elem_iff.mpr h)]

/-- An absent URL is appended as `pending` with rowcount 1. -/
theorem qInsertIgnore_of_not_mem {st : Store} {u : String}
    (h : u ∉ st.queue.map (fun r => r.1)) :
    qInsertIgnore st u =
      (1, { st with queue := st.queue ++ [(u, Status.pending)] }) := by
  unfold qInsertIgnore
  rw [if_neg (fun hc => h (List.elem_iff.mp hc))]

/-- Relationship insertion touches only the relationships. -/
theorem relInsertIgnore_domains (st : Store) (p c : Nat) :
    (relInsertIgnore st p c).domains = st.domains := by
  unfold relInsertIgnore; split <;> rfl

/-- Relationship insertion touches only the relationships. -/
theorem relInsertIgnore_queue (st : Store) (p c : Nat) :
    (relInsertIgnore st p c).queue = st.queue := by
  unfold relInsertIgnore; split <;> rfl

/-- Relationship insertion touches only the relationships. -/
theorem relInsertIgnore_nextId (st : Store) (p c : Nat) :
    (relInsertIgnore st p c).nextId = st.nextId := by
  unfold relInsertIgnore; split <;> rfl

/-- Domain selects read through a relationship insertion. -/
theorem dSelect_relInsertIgnore (st : Store) (p c : Nat) (m : String) :
    dSelect (relInsertIgnore st p c) m = dSelect st m := by
  unfold dSelect; rw [relInsertIgnore_domains]

/-- Counters read through a relationship insertion. -/
theorem counterOf_relInsertIgnore (st : Store) (p c : Nat) (m : String) :
    counterOf (relInsertIgnore st p c) m = counterOf st m := by
  unfold counterOf; rw [dSelect_relInsertIgnore]

/-- A relationship insertion raises any target count by at most one. -/
theorem relCountTo_relInsertIgnore_le (st : Store) (p c : Nat) (m : String) :
    relCountTo (relInsertIgnore st p c) m ≤ relCountTo st m + 1 := by
  by_cases hc : st.rels.contains (p, c) = true
  · have he : relInsertIgnore st p c = st := by
      unfold relInsertIgnore; rw [if_pos hc]
    rw [he]
    exact Nat.le_succ _
  · have he : (relInsertIgnore st p c).rels = st.rels ++ [(p, c)] := by
      unfold relInsertIgnore; rw [if_neg hc]
    unfold relCountTo
    rw [dSelect_relInsertIgnore, he]
    cases h : dSelect st m with
    | none => simp
    | some x =>
      dsimp only
      rw [List.filter_append, List.length_append]
      have hle : (List.filter (fun r => r.2 == x.1) [(p, c)]).length ≤ 1 :=
        List.length_filter_le _ _
      omega

/-- A relationship insertion towards a different child leaves the count
unchanged. -/
theorem relCountTo_relInsertIgnore_ne (st : Store) (p c : Nat) (m : String)
    {x : Nat × Nat} (h : dSelect st m = some x) (hne : x.1 ≠ c) :
    relCountTo (relInsertIgnore st p c) m = relCountTo st m := by
  by_cases hc : st.rels.contains (p, c) = true
  · have he : relInsertIgnore st p c = st := by
      unfold relInsertIgnore; rw [if_pos hc]
    rw [he]
  · have he : (relInsertIgnore st p c).rels = st.rels ++ [(p, c)] := by
      unfold relInsertIgnore; rw [if_neg hc]
    unfold relCountTo
    rw [dSelect_relInsertIgnore, he, h]
    dsimp only
    rw [List.filter_append, List.length_append]
    have hz : ((p, c).2 == x.1) = false := by
      rw [beq_eq_false_iff_ne]
      exact fun he2 => hne he2.symm
    simp [List.filter, hz]

/-- Relationship insertion preserves well-formedness when the child id is
below the auto-increment counter. -/
theorem WF_relInsertIgnore (st : Store) (p c : Nat) (h : WF st = true)
    (hc : c < st.nextId) : WF (relInsertIgnore st p c) = true := by
  rw [WF_iff] at h ⊢
  obtain ⟨h1, h2, h3⟩ := h
  rw [relInsertIgnore_domains, relInsertIgnore_nextId]
  refine ⟨h1, h2, ?_⟩
  intro r hr
  unfold relInsertIgnore at hr
  revert hr
  split
  · exact fun hr => h3 r hr
  · intro hr
    rcases List.mem_append.mp hr with hm | hm
    · exact h3 r hm
    · rw [List.mem_singleton] at hm
      subst hm
      exact hc

/-- The counter bump preserves the row's name. -/
theorem bumpRow_name (j : Nat) (d : DomainRow) :
    (bumpRow j d).name = d.name := by
  unfold bumpRow; split <;> rfl

/-- The counter bump preserves the row's id. -/
theorem bumpRow_id (j : Nat) (d : DomainRow) : (bumpRow j d).id = d.id := by
  unfold bumpRow; split <;> rfl

/-- How a domain select reads through a counter increment. -/
theorem dSelect_dIncrCounter (st : Store) (j : Nat) (m : String) :
    dSelect (dIncrCounter st j) m =
      (dSelect st m).map (fun x => if x.1 = j then (x.1, x.2 + 1) else x) := by
  unfold dSelect dIncrCounter
  rw [List.find?_map]
  have hp : ((fun d : DomainRow => d.name == m) ∘ (bumpRow j)) =
      (fun d : DomainRow => d.name == m) := by
    funext d
    simp [Function.comp, bumpRow_name]
  rw [hp]
  cases h : st.domains.find? (fun d => d.name == m) with
  | none => rfl
  | some d =>
    simp only [Option.map_some']
    unfold bumpRow
    by_cases hd : d.id = j <;> simp [hd]

/-- The increment adds one to the counter of the row whose id matches and
leaves other counters unchanged. -/
theorem counterOf_dIncrCounter_of_dSelect {st : Store} {j : Nat} {m : String}
    {x : Nat × Nat} (h : dSelect st m = some x) :
    counterOf (dIncrCounter st j) m = if x.1 = j then x.2 + 1 else x.2 := by
  unfold counterOf
  rw [dSelect_dIncrCounter, h]
  by_cases hx : x.1 = j <;> simp [hx]

/-- Incrementing does not create domains. -/
theorem counterOf_dIncrCounter_none {st : Store} {j : Nat} {m : String}
    (h : dSelect st m = none) : counterOf (dIncrCounter st j) m = 0 := by
  unfold counterOf
  rw [dSelect_dIncrCounter, h]
  rfl

/-- The increment changes no relationship count. -/
theorem relCountTo_dIncrCounter (st : Store) (j : Nat) (m : String) :
    relCountTo (dIncrCounter st j) m = relCountTo st m := by
  have hr : (dIncrCounter st j).rels = st.rels := rfl
  unfold relCountTo
  rw [dSelect_dIncrCounter, hr]
  cases h : dSelect st m with
  | none => rfl
  | some x => by_cases hx : x.1 = j <;> simp [hx]

/-- The counter bump preserves row distinctness. -/
theorem wfDomains_map_bump (j : Nat) (l : List DomainRow) :
    wfDomains (l.map (bumpRow j)) = wfDomains l := by
  induction l with
  | nil => rfl
  | cons a t ih =>
    simp only [List.map_cons, wfDomains]
    rw [ih, List.all_map]
    have hp : ((fun e : DomainRow =>
          !(e.name == (bumpRow j a).name) && !(e.id == (bumpRow j a).id)) ∘
          (bumpRow j)) =
        (fun e : DomainRow => !(e.name == a.name) && !(e.id == a.id)) := by
      funext e
      simp [Function.comp, bumpRow_name, bumpRow_id]
    rw [hp]

/-- The increment preserves well-formedness. -/
theorem WF_dIncrCounter (st : Store) (j : Nat) (h : WF st = true) :
    WF (dIncrCounter st j) = true := by
  rw [WF_iff] at h ⊢
  obtain ⟨h1, h2, h3⟩ := h
  refine ⟨?_, ?_, h3⟩
  · show wfDomains (st.domains.map (bumpRow j)) = true
    rw [wfDomains_map_bump]
    exact h1
  · intro d hd
    obtain ⟨e, he, hbe⟩ := List.mem_map.mp hd
    rw [← hbe, bumpRow_id]
    exact h2 e he

/-- A successful domain select exhibits its row. -/
theorem row_of_dSelect_some {st : Store} {m : String} {x : Nat × Nat}
    (h : dSelect st m = some x) :
    ∃ r ∈ st.domains, r.name = m ∧ r.id = x.1 ∧ r.processed_links = x.2 := by
  unfold dSelect at h
  obtain ⟨d, hfind, hdx⟩ := Option.map_eq_some'.mp h
  refine ⟨d, List.mem_of_find?_eq_some hfind, ?_, ?_, ?_⟩
  · simpa using List.find?_some hfind
  · rw [← hdx]
  · rw [← hdx]

/-- Distinct rows of a well-formed domain table have distinct ids. -/
theorem wfDomains_id_inj {l : List DomainRow} (h : wfDomains l = true)
    {r1 r2 : DomainRow} (h1 : r1 ∈ l) (h2 : r2 ∈ l) (hid : r1.id = r2.id) :
    r1 = r2 := by
  induction l with
  | nil => cases h1
  | cons a t ih =>
    unfold wfDomains at h
    rw [Bool.and_eq_true, List.all_eq_true] at h
    obtain ⟨ha, ht⟩ := h
    rcases List.mem_cons.mp h1 with e1 | m1 <;> rcases List.mem_cons.mp h2 with e2 | m2
    · rw [e1, e2]
    · subst e1
      exfalso
      have hcheck := ha r2 m2
      simp only [Bool.and_eq_true, Bool.not_eq_true', beq_eq_false_iff_ne] at hcheck
      exact hcheck.2 hid.symm
    · subst e2
      exfalso
      have hcheck := ha r1 m1
      simp only [Bool.and_eq_true, Bool.not_eq_true', beq_eq_false_iff_ne] at hcheck
      exact hcheck.2 hid
    · exact ih ht m1 m2

/-! ### Fault-free behaviour of `store_domain_and_relationship` -/

/-- `queue_link` on the fault-free schedule inserts the normalized URL
and reports whether a row was added. -/
theorem queue_link_nofault (st : Store) (c : String) :
    queue_link st [] c =
      Except.ok (decide ((qInsertIgnore st (cleanedUrl c)).1 > 0),
        (qInsertIgnore st (cleanedUrl c)).2, []) := by
  unfold queue_link
  simp only [takeFault]

/-- `sdrFinish` on the fault-free schedule: skip at the limit, otherwise
enqueue and, exactly when a row was inserted, record the relationship and
bump the counter. -/
theorem sdrFinish_nofault (st : Store) (c : String) (pid cid cpl limit : Nat) :
    sdrFinish st [] c pid cid cpl limit =
      Except.ok ((if limit > 0 && cpl ≥ limit then st
        else if (qInsertIgnore st (cleanedUrl c)).1 > 0 then
          dIncrCounter (relInsertIgnore (qInsertIgnore st (cleanedUrl c)).2 pid cid) cid
        else (qInsertIgnore st (cleanedUrl c)).2), []) := by
  unfold sdrFinish
  by_cases hl : (limit > 0 && cpl ≥ limit) = true
  · rw [if_pos hl, if_pos hl]
  · rw [if_neg hl, if_neg hl]
    rw [queue_link_nofault]
    dsimp only
    by_cases hb : (qInsertIgnore st (cleanedUrl c)).1 > 0
    · simp [hb, takeFault]
    · simp [hb, takeFault]

/-- The translated `store_domain_and_relationship` on the fault-free
schedule computes `sdrNF` and raises nothing. -/
theorem store_domain_and_relationship_nofault (st : Store) (p c : String)
    (limit : Nat) :
    store_domain_and_relationship st [] p c limit =
      Except.ok (sdrNF st p c limit, []) := by
  unfold store_domain_and_relationship sdrNF
  simp only [takeFault]
  rw [dSelect_dInsertIgnore_self st (urlparse p).netloc]
  dsimp only
  cases hcd : dSelect (dInsertIgnore st (urlparse p).netloc) (urlparse c).netloc with
  | some x =>
    have hid : dInsertIgnore (dInsertIgnore st (urlparse p).netloc)
        (urlparse c).netloc = dInsertIgnore st (urlparse p).netloc :=
      dInsertIgnore_of_dSelect_some hcd
    rw [hid, hcd]
    dsimp only
    rw [sdrFinish_nofault]
    simp only [Option.getD_some]
  | none =>
    have hself := dSelect_dInsertIgnore_self
      (dInsertIgnore st (urlparse p).netloc) (urlparse c).netloc
    rw [hcd, Option.getD_none] at hself
    rw [hself]
    dsimp only
    rw [sdrFinish_nofault]
    simp only [Option.getD_some]

/-- `sdrRun` equals the fault-free case split. -/
theorem sdrRun_eq (st : Store) (p c : String) (limit : Nat) :
    sdrRun st p c limit = sdrNF st p c limit := by
  unfold sdrRun
  rw [store_domain_and_relationship_nofault]

/-! ### The per-domain limit invariant (C6) -/

/-- Invariant preservation for the enqueue-then-record tail: starting
from a well-formed store whose child-domain counter is strictly below the
limit, the conditional relationship insert and counter bump keep every
domain's counter at or below `N` and its incoming relationship count at
or below its counter. -/
theorem sdr_limit_invariant_finish (st2 : Store) (key : String) (pid : Nat) (v : Nat × Nat)
    (cdn d : String) (N : Nat) (hwf2 : WF st2 = true)
    (hv : dSelect st2 cdn = some v) (hcpl : v.2 < N)
    (hcnt2 : counterOf st2 d ≤ N) (hrel2 : relCountTo st2 d ≤ counterOf st2 d) :
    WF (if (qInsertIgnore st2 key).1 > 0 then
          dIncrCounter (relInsertIgnore (qInsertIgnore st2 key).2 pid v.1) v.1
        else (qInsertIgnore st2 key).2) = true ∧
    counterOf (if (qInsertIgnore st2 key).1 > 0 then
          dIncrCounter (relInsertIgnore (qInsertIgnore st2 key).2 pid v.1) v.1
        else (qInsertIgnore st2 key).2) d ≤ N ∧
    relCountTo (if (qInsertIgnore st2 key).1 > 0 then
          dIncrCounter (relInsertIgnore (qInsertIgnore st2 key).2 pid v.1) v.1
        else (qInsertIgnore st2 key).2) d ≤
      counterOf (if (qInsertIgnore st2 key).1 > 0 then
          dIncrCounter (relInsertIgnore (qInsertIgnore st2 key).2 pid v.1) v.1
        else (qInsertIgnore st2 key).2) d := by
  have hwfq : WF (qInsertIgnore st2 key).2 = true := WF_qInsertIgnore st2 key hwf2
  by_cases hins : (qInsertIgnore st2 key).1 > 0
  · rw [if_pos hins]
    have hcidlt : v.1 < st2.nextId := by
      obtain ⟨r, hrm, -, hri, -⟩ := row_of_dSelect_some hv
      rw [← hri]
      exact ((WF_iff st2).mp hwf2).2.1 r hrm
    have hwfrel : WF (relInsertIgnore (qInsertIgnore st2 key).2 pid v.1) = true := by
      apply WF_relInsertIgnore _ _ _ hwfq
      rw [qInsertIgnore_nextId]
      exact hcidlt
    refine ⟨WF_dIncrCounter _ _ hwfrel, ?_⟩
    cases hd : dSelect st2 d with
    | none =>
      have hdq : dSelect (relInsertIgnore (qInsertIgnore st2 key).2 pid v.1) d = none := by
        rw [dSelect_relInsertIgnore, dSelect_qInsertIgnore, hd]
      constructor
      · rw [counterOf_dIncrCounter_none hdq]
        exact Nat.zero_le N
      · have hz : relCountTo
            (dIncrCounter (relInsertIgnore (qInsertIgnore st2 key).2 pid v.1) v.1) d = 0 := by
          unfold relCountTo
          rw [dSelect_dIncrCounter, hdq]
          rfl
        rw [hz, counterOf_dIncrCounter_none hdq]
    | some x =>
      have hdq : dSelect (relInsertIgnore (qInsertIgnore st2 key).2 pid v.1) d = some x := by
        rw [dSelect_relInsertIgnore, dSelect_qInsertIgnore, hd]
      have hcst : counterOf st2 d = x.2 := by
        unfold counterOf
        rw [hd]
        rfl
      by_cases hxid : x.1 = v.1
      · obtain ⟨r1, hm1, -, hi1, hp1⟩ := row_of_dSelect_some hd
        obtain ⟨r2, hm2, -, hi2, hp2⟩ := row_of_dSelect_some hv
        have hre : r1 = r2 :=
          wfDomains_id_inj ((WF_iff st2).mp hwf2).1 hm1 hm2 (by rw [hi1, hi2, hxid])
        have hx2 : x.2 = v.2 := by rw [← hp1, hre, hp2]
        have hcof : counterOf
            (dIncrCounter (relInsertIgnore (qInsertIgnore st2 key).2 pid v.1) v.1) d =
            x.2 + 1 := by
          rw [counterOf_dIncrCounter_of_dSelect hdq, if_pos hxid]
        constructor
        · rw [hcof, hx2]
          omega
        · rw [hcof]
          have h1 : relCountTo
              (dIncrCounter (relInsertIgnore (qInsertIgnore st2 key).2 pid v.1) v.1) d =
              relCountTo (relInsertIgnore (qInsertIgnore st2 key).2 pid v.1) d :=
            relCountTo_dIncrCounter _ _ _
          have h2 : relCountTo (relInsertIgnore (qInsertIgnore st2 key).2 pid v.1) d ≤
              relCountTo (qInsertIgnore st2 key).2 d + 1 :=
            relCountTo_relInsertIgnore_le _ _ _ _
          have h3 : relCountTo (qInsertIgnore st2 key).2 d = relCountTo st2 d :=
            relCountTo_qInsertIgnore _ _ _
          omega
      · have hcof : counterOf
            (dIncrCounter (relInsertIgnore (qInsertIgnore st2 key).2 pid v.1) v.1) d =
            x.2 := by
          rw [counterOf_dIncrCounter_of_dSelect hdq, if_neg hxid]
        constructor
        · rw [hcof, ← hcst]
          exact hcnt2
        · rw [hcof]
          have h1 : relCountTo
              (dIncrCounter (relInsertIgnore (qInsertIgnore st2 key).2 pid v.1) v.1) d =
              relCountTo (relInsertIgnore (qInsertIgnore st2 key).2 pid v.1) d :=
            relCountTo_dIncrCounter _ _ _
          have h2 : relCountTo (relInsertIgnore (qInsertIgnore st2 key).2 pid v.1) d =
              relCountTo (qInsertIgnore st2 key).2 d := by
            apply relCountTo_relInsertIgnore_ne
            · rw [dSelect_qInsertIgnore]
              exact hd
            · exact hxid
          have h3 : relCountTo (qInsertIgnore st2 key).2 d = relCountTo st2 d :=
            relCountTo_qInsertIgnore _ _ _
          omega
  · rw [if_neg hins]
    refine ⟨hwfq, ?_, ?_⟩
    · rw [counterOf_qInsertIgnore]
      exact hcnt2
    · rw [relCountTo_qInsertIgnore, counterOf_qInsertIgnore]
      exact hrel2

/-- One fault-free `store_domain_and_relationship` call preserves, for
every domain, well-formedness, the counter bound, and the dominance of
the counter over the incoming relationship count. -/
theorem sdr_limit_invariant_step (N : Nat) (hN : 0 < N) (st : Store) (d p c : String)
    (hwf : WF st = true) (hcnt : counterOf st d ≤ N)
    (hrel : relCountTo st d ≤ counterOf st d) :
    WF (sdrNF st p c N) = true ∧ counterOf (sdrNF st p c N) d ≤ N ∧
    relCountTo (sdrNF st p c N) d ≤ counterOf (sdrNF st p c N) d := by
  have hwf1 : WF (dInsertIgnore st (urlparse p).netloc) = true :=
    WF_dInsertIgnore _ hwf
  have hwf2 : WF (dInsertIgnore (dInsertIgnore st (urlparse p).netloc)
      (urlparse c).netloc) = true := WF_dInsertIgnore _ hwf1
  have hcnt2 : counterOf (dInsertIgnore (dInsertIgnore st (urlparse p).netloc)
      (urlparse c).netloc) d = counterOf st d := by
    rw [counterOf_dInsertIgnore, counterOf_dInsertIgnore]
  have hrel2 : relCountTo (dInsertIgnore (dInsertIgnore st (urlparse p).netloc)
      (urlparse c).netloc) d = relCountTo st d := by
    rw [relCountTo_dInsertIgnore _ _ _ ((WF_iff _).mp hwf1).2.2,
        relCountTo_dInsertIgnore _ _ _ ((WF_iff _).mp hwf).2.2]
  obtain ⟨v, hv⟩ : ∃ v, dSelect (dInsertIgnore (dInsertIgnore st
      (urlparse p).netloc) (urlparse c).netloc) (urlparse c).netloc = some v :=
    ⟨_, dSelect_dInsertIgnore_self _ _⟩
  simp only [sdrNF]
  rw [hv]
  simp only [Option.getD_some]
  by_cases hlim : (N > 0 && v.2 ≥ N) = true
  · rw [if_pos hlim]
    refine ⟨hwf2, ?_, ?_⟩
    · rw [hcnt2]
      exact hcnt
    · rw [hrel2, hcnt2]
      exact hrel
  · rw [if_neg hlim]
    have hcpl : v.2 < N := by
      refine Nat.lt_of_not_le (fun hge => hlim ?_)
      simp [hN, hge]
    exact sdr_limit_invariant_finish _ (cleanedUrl c) _ v (urlparse c).netloc d N hwf2 hv hcpl
      (by rw [hcnt2]; exact hcnt) (by rw [hrel2, hcnt2]; exact hrel)

/-- At or above the limit, the fault-free call leaves queue,
relationships and every counter unchanged (only domain rows may have
been created). -/
theorem sdrRun_skip (N : Nat) (hN : 0 < N) (st : Store) (p c : String)
    (hcnt : N ≤ counterOf st ((urlparse c).netloc)) :
    (sdrRun st p c N).queue = st.queue ∧ (sdrRun st p c N).rels = st.rels ∧
    (∀ m, counterOf (sdrRun st p c N) m = counterOf st m) := by
  rw [sdrRun_eq]
  obtain ⟨v, hv⟩ : ∃ v, dSelect (dInsertIgnore (dInsertIgnore st
      (urlparse p).netloc) (urlparse c).netloc) (urlparse c).netloc = some v :=
    ⟨_, dSelect_dInsertIgnore_self _ _⟩
  have hvc : v.2 = counterOf st ((urlparse c).netloc) := by
    have h1 : counterOf (dInsertIgnore (dInsertIgnore st (urlparse p).netloc)
        (urlparse c).netloc) ((urlparse c).netloc) = v.2 := by
      unfold counterOf
      rw [hv]
      rfl
    rw [← h1, counterOf_dInsertIgnore, counterOf_dInsertIgnore]
  have hlim : (N > 0 && v.2 ≥ N) = true := by
    rw [hvc]
    simp [hN, hcnt]
  simp only [sdrNF]
  rw [hv]
  simp only [Option.getD_some]
  rw [if_pos hlim]
  refine ⟨?_, ?_, ?_⟩
  · rw [dInsertIgnore_queue, dInsertIgnore_queue]
  · rw [dInsertIgnore_rels, dInsertIgnore_rels]
  · intro m
    rw [counterOf_dInsertIgnore, counterOf_dInsertIgnore]

/-- The invariant carried over a whole fault-free single-worker run. -/
theorem run_limit_invariant (N : Nat) (hN : 0 < N) (st : Store) (d : String)
    (steps : List (String × String)) (hwf : WF st = true)
    (hcnt : counterOf st d ≤ N) (hrel : relCountTo st d ≤ counterOf st d) :
    WF (runWorkerSteps N steps st) = true ∧
    counterOf (runWorkerSteps N steps st) d ≤ N ∧
    relCountTo (runWorkerSteps N steps st) d ≤
      counterOf (runWorkerSteps N steps st) d := by
  induction steps generalizing st with
  | nil => exact ⟨hwf, hcnt, hrel⟩
  | cons s t ih =>
    have hstep := sdr_limit_invariant_step N hN st d s.1 s.2 hwf hcnt hrel
    have hfold : runWorkerSteps N (s :: t) st =
        runWorkerSteps N t (sdrRun st s.1 s.2 N) := rfl
    rw [hfold, sdrRun_eq]
    exact ih _ hstep.1 hstep.2.1 hstep.2.2

/-- C6: with `domain_link_limit = N > 0`, a child domain whose counter
has reached `N` at check time is skipped with no enqueue, no relationship
insert and no counter change; and over any fault-free single-worker run,
starting from any well-formed store satisfying the invariant (e.g. a
fresh one), a domain's `processed_links` never exceeds `N` and at most
`N` relationship rows target it. -/
theorem c6_domain_limit_enforced (N : Nat) (hN : 0 < N) :
    (∀ (st : Store) (p c : String),
       N ≤ counterOf st ((urlparse c).netloc) →
       (sdrRun st p c N).queue = st.queue ∧
       (sdrRun st p c N).rels = st.rels ∧
       (∀ m, counterOf (sdrRun st p c N) m = counterOf st m)) ∧
    (∀ (st : Store) (d : String) (steps : List (String × String)),
       WF st = true → counterOf st d ≤ N → relCountTo st d ≤ counterOf st d →
       counterOf (runWorkerSteps N steps st) d ≤ N ∧
       relCountTo (runWorkerSteps N steps st) d ≤ N) := by
  constructor
  · intro st p c hcnt
    exact sdrRun_skip N hN st p c hcnt
  · intro st d steps hwf hcnt hrel
    have h := run_limit_invariant N hN st d steps hwf hcnt hrel
    exact ⟨h.2.1, Nat.le_trans h.2.2 h.2.1⟩

/-- C6 witness: limit 1, one parent discovering two links into `b.test`:
the counter and the incoming relationship count stay at 1; and a store
already at the limit skips the link without touching the queue. -/
theorem c6_witness :
    counterOf (runWorkerSteps 1
      [("http://a.test/", "http://b.test/p1"), ("http://a.test/", "http://b.test/p2")]
      ⟨[], [], [], 0⟩) "b.test" ≤ 1 ∧
    relCountTo (runWorkerSteps 1
      [("http://a.test/", "http://b.test/p1"), ("http://a.test/", "http://b.test/p2")]
      ⟨[], [], [], 0⟩) "b.test" ≤ 1 ∧
    (sdrRun ⟨[], [⟨0, "b.test", 1⟩], [], 1⟩ "http://a.test/" "http://b.test/x" 1).queue = [] := by
  have h2 := (c6_domain_limit_enforced 1 (by decide)).2 ⟨[], [], [], 0⟩ "b.test"
    [("http://a.test/", "http://b.test/p1"), ("http://a.test/", "http://b.test/p2")]
    (by decide) (by decide) (by decide)
  have h1 := (c6_domain_limit_enforced 1 (by decide)).1
    ⟨[], [⟨0, "b.test", 1⟩], [], 1⟩ "http://a.test/" "http://b.test/x" (by decide)
  exact ⟨h2.1, h2.2, h1.1⟩

/-- C5: on the fault-free path, once the parent and child domains are
resolved (`st1`, `st2`) and the limit check passes, the call records the
parent→child relationship and increments the child domain's counter
exactly when the enqueue of the normalized child URL inserted a new row;
when the URL already exists in the queue, the store is left exactly at
`st2` — no relationship insert, no counter increment, no queue change. -/
theorem c5_enqueue_gates_record (st st1 st2 : Store) (p c : String)
    (limit : Nat) (pid ppl cid cpl : Nat)
    (hst1 : st1 = dInsertIgnore st (urlparse p).netloc)
    (hst2 : st2 = dInsertIgnore st1 (urlparse c).netloc)
    (hp : dSelect st1 (urlparse p).netloc = some (pid, ppl))
    (hc : dSelect st2 (urlparse c).netloc = some (cid, cpl))
    (hlim : ¬(limit > 0 ∧ cpl ≥ limit)) :
    (cleanedUrl c ∈ st2.queue.map (fun r => r.1) →
       store_domain_and_relationship st [] p c limit = Except.ok (st2, [])) ∧
    (cleanedUrl c ∉ st2.queue.map (fun r => r.1) →
       store_domain_and_relationship st [] p c limit =
         Except.ok (dIncrCounter (relInsertIgnore
             { st2 with queue := st2.queue ++ [(cleanedUrl c, Status.pending)] }
             pid cid) cid, []) ∧
       counterOf (dIncrCounter (relInsertIgnore
             { st2 with queue := st2.queue ++ [(cleanedUrl c, Status.pending)] }
             pid cid) cid) ((urlparse c).netloc) = cpl + 1) := by
  subst hst1
  subst hst2
  have hlimb : ¬((limit > 0 && cpl ≥ limit) = true) := by
    intro hb
    rw [Bool.and_eq_true, decide_eq_true_eq, decide_eq_true_eq] at hb
    exact hlim hb
  constructor
  · intro hmem
    rw [store_domain_and_relationship_nofault]
    simp only [sdrNF]
    rw [hc]
    simp only [Option.getD_some]
    rw [if_neg hlimb, qInsertIgnore_of_mem hmem]
    simp
  · intro hmem
    have hq := qInsertIgnore_of_not_mem hmem
    constructor
    · rw [store_domain_and_relationship_nofault]
      simp only [sdrNF]
      rw [hc, hp]
      simp only [Option.getD_some]
      rw [if_neg hlimb, hq]
      simp
    · have hsel : dSelect (relInsertIgnore
          { dInsertIgnore (dInsertIgnore st (urlparse p).netloc) (urlparse c).netloc
            with queue := (dInsertIgnore (dInsertIgnore st (urlparse p).netloc)
              (urlparse c).netloc).queue ++ [(cleanedUrl c, Status.pending)] }
          pid cid) ((urlparse c).netloc) = some (cid, cpl) := by
        rw [dSelect_relInsertIgnore]
        exact hc
      rw [counterOf_dIncrCounter_of_dSelect hsel]
      simp

/-- C5 witness: from the empty store, processing parent
`http://a.test/` with discovered link `http://b.test/page` (unseen URL)
inserts the queue row, records the relationship `(0, 1)` and sets
`b.test`'s counter to 1. -/
theorem c5_witness :
    store_domain_and_relationship ⟨[], [], [], 0⟩ [] "http://a.test/"
        "http://b.test/page" 0 =
      Except.ok (⟨[("http://b.test/page/", Status.pending)],
        [⟨0, "a.test", 0⟩, ⟨1, "b.test", 1⟩], [(0, 1)], 2⟩, []) := by
  have h := (c5_enqueue_gates_record ⟨[], [], [], 0⟩
      (dInsertIgnore ⟨[], [], [], 0⟩ (urlparse "http://a.test/").netloc)
      (dInsertIgnore (dInsertIgnore ⟨[], [], [], 0⟩ (urlparse "http://a.test/").netloc)
        (urlparse "http://b.test/page").netloc)
      "http://a.test/" "http://b.test/page" 0 0 0 1 0 rfl rfl (by decide) (by decide)
      (by decide)).2 (by decide)
  rw [h.1]
  decide

end MapTheInternet
